import Mathlib

/-!
Verification of the wormy 5.0 game-server core (`server/src/index.ts`).

Embedding conventions.  JavaScript numbers are embedded as exact rationals
(every numeric literal of the source is a decimal, hence rational).  The
transcendental library calls of the source — `Math.PI`, `Math.sqrt`,
`Math.cos`, `Math.sin`, `Math.hypot` — and the random source
(`Math.random`, `uuidv4`) are passed in as explicit oracle parameters, so
every definition stays executable and the theorems hold uniformly in the
values those oracles return.  Identifiers follow the source; collections
(`Map`, arrays) become insertion-ordered lists, `Map.set` on a fresh key
becomes an append and on a present key an in-place update.
-/

namespace Wormy

/-- World point, `type Vector2 = { x: number; y: number }`. -/
structure Vector2 where
  x : ℚ
  y : ℚ
  deriving DecidableEq

/-- `type RoomConfig` of the source, all eleven fields. -/
structure RoomConfig where
  mapSize : ℚ
  maxPlayers : ℚ
  foodCoveragePercent : ℚ
  foodSpawnRatePerSecond : ℚ
  emptyRoomTtlSeconds : ℚ
  suctionRadiusMultiplier : ℚ
  suctionStrengthMultiplier : ℚ
  foodValueMultiplier : ℚ
  foodNearPlayerTarget : ℚ
  bodyRadiusMultiplier : ℚ
  bodyLengthMultiplier : ℚ
  deriving DecidableEq

/-- `type Player` of the source; `ws` is the opaque transport handle. -/
structure Player where
  id : ℕ
  name : String
  score : ℚ
  position : Vector2
  directionRad : ℚ
  targetDirectionRad : ℚ
  boosting : Bool
  ws : ℕ
  bodyPoints : List Vector2
  deriving DecidableEq

/-- `type Food` of the source. -/
structure Food where
  id : ℕ
  position : Vector2
  value : ℚ
  deriving DecidableEq

/-- `type GameRoom` of the source restricted to the simulation fields
(the spectator set, tick-duration ring and minimap cache carry no claim). -/
structure GameRoom where
  id : ℕ
  config : RoomConfig
  players : List Player
  foods : List Food
  isClosed : Bool
  emptySince : Option ℚ
  deriving DecidableEq

/-- `type ClientMeta` of the source (per-session record). -/
structure ClientMeta where
  id : ℕ
  roomId : Option ℕ
  lastPingId : Option ℚ
  lastPingSentAt : Option ℚ
  rttMs : Option ℚ
  lastPongAt : Option ℚ
  lastInputAt : Option ℚ
  lastMessageAt : Option ℚ
  inputAllowance : ℚ
  inputRefillAt : ℚ
  deriving DecidableEq

/-- The process-wide `metrics` counters. -/
structure Metrics where
  inputSpoofRejected : ℕ
  inputInvalid : ℕ
  inputThrottled : ℕ
  roomsClosedTimeout : ℕ
  deriving DecidableEq

/-- The process state the player-socket handler touches: the room manager's
map, the default config, the banned-name set and the counters. -/
structure ServerState where
  rooms : List GameRoom
  defaultConfig : RoomConfig
  bannedNames : List String
  metrics : Metrics
  deriving DecidableEq

/-- `const INPUTS_PER_SECOND = 30`. -/
def INPUTS_PER_SECOND : ℚ := 30

/-- `const INPUT_BUCKET_CAPACITY = 45`. -/
def INPUT_BUCKET_CAPACITY : ℚ := 45

/-- `function distanceSquared(a, b)`. -/
def distanceSquared (a b : Vector2) : ℚ :=
  let dx := a.x - b.x
  let dy := a.y - b.y
  dx * dx + dy * dy

/-- `function computeRadius(score, config)`; `sqrtO` embeds `Math.sqrt`. -/
def computeRadius (sqrtO : ℚ → ℚ) (score : ℚ) (config : RoomConfig) : ℚ :=
  let base := 6 + sqrtO (max 0 score) * 0.6
  let mult := max 0.1 config.bodyRadiusMultiplier
  base * mult

/-- `function computeTargetLength(score, config)`. -/
def computeTargetLength (score : ℚ) (config : RoomConfig) : ℚ :=
  let base := 120 + score * 2.5
  let mult := max 0.1 config.bodyLengthMultiplier
  base * mult

/-- `function computeSpeed(score, boosting)`. -/
def computeSpeed (score : ℚ) (boosting : Bool) : ℚ :=
  let base := 220 / (1 + 0.004 * max 0 score)
  if boosting then base * 1.55 else base

/-- `function computeMaxTurnRate(score)`; `sqrtO` embeds `Math.sqrt`. -/
def computeMaxTurnRate (sqrtO : ℚ → ℚ) (score : ℚ) : ℚ :=
  let fast : ℚ := 7.0
  let slow : ℚ := 2.2
  let t := min 1 (sqrtO (max 0 score) / 80)
  slow + (fast - slow) * (1 - t)

/-- `function normalizeAngle(angle)`; `pi` embeds `Math.PI`.  The source's
`Number.isFinite` guard returns `0` for non-finite input; rationals are
always finite, so the guard is vacuous here (non-finite `directionRad`
values are rejected before this function is reached, see `handleMessage`). -/
def normalizeAngle (pi : ℚ) (angle : ℚ) : ℚ :=
  let twoPi := pi * 2
  let wrapped := angle + pi
  let normalized := wrapped - (⌊wrapped / twoPi⌋ : ℚ) * twoPi
  normalized - pi

/-- `function rotateTowards(current, target, maxDelta)`. -/
def rotateTowards (pi : ℚ) (current target maxDelta : ℚ) : ℚ :=
  let diff := normalizeAngle pi (target - current)
  let clamped := max (-maxDelta) (min maxDelta diff)
  normalizeAngle pi (current + clamped)

/-- Walks the body head-first (the source walks indices `len-1` down to `1`)
accumulating segment length; once the accumulated length exceeds the target
the source keeps indices `i-1 ..` — head-first, everything traversed so far
plus the far endpoint of the triggering segment.  `seg` embeds `Math.hypot`
applied to the two endpoints' coordinate differences. -/
def trimAuxR (seg : Vector2 → Vector2 → ℚ) (targetLength : ℚ) :
    ℚ → Vector2 → List Vector2 → List Vector2
  | _, prev, [] => [prev]
  | total, prev, p :: rest =>
    if targetLength < total + seg prev p then [prev, p]
    else prev :: trimAuxR seg targetLength (total + seg prev p) p rest

/-- `function trimBodyToLength(points, targetLength)` (points stored
tail-first, as in the source). -/
def trimBodyToLength (seg : Vector2 → Vector2 → ℚ)
    (points : List Vector2) (targetLength : ℚ) : List Vector2 :=
  if points.length ≤ 1 then points
  else
    match points.reverse with
    | [] => points
    | h :: rest => (trimAuxR seg targetLength 0 h rest).reverse

/-- Total arc length of a polyline under the segment-length oracle `seg`. -/
def arcLength (seg : Vector2 → Vector2 → ℚ) : List Vector2 → ℚ
  | a :: b :: rest => seg a b + arcLength seg (b :: rest)
  | _ => 0

/-- Largest single segment length of a polyline (0 for degenerate bodies). -/
def maxSegment (seg : Vector2 → Vector2 → ℚ) : List Vector2 → ℚ
  | a :: b :: rest => max (seg a b) (maxSegment seg (b :: rest))
  | _ => 0

/-- The refill half of the token bucket (input handler, lines around
`const elapsedSec = (now - meta.inputRefillAt) / 1000`). -/
def refillBucket (now : ℚ) (m : ClientMeta) : ClientMeta :=
  if 0 < (now - m.inputRefillAt) / 1000 then
    { m with
      inputAllowance :=
        min INPUT_BUCKET_CAPACITY
          (m.inputAllowance + (now - m.inputRefillAt) / 1000 * INPUTS_PER_SECOND),
      inputRefillAt := now }
  else m

/-- `meta.inputAllowance -= 1; meta.lastInputAt = now` — the accepted-frame
half of the gate. -/
def consumeToken (now : ℚ) (m : ClientMeta) : ClientMeta :=
  { m with inputAllowance := m.inputAllowance - 1, lastInputAt := some now }

/-- The gate of the token bucket: refill, then either throttle
(`inputAllowance < 1`, second component `false`) or consume one token and
stamp `lastInputAt` (second component `true`).  Exactly the sequence of the
input handler between the spoof check and the `directionRad` check. -/
def inputGate (now : ℚ) (m : ClientMeta) : ClientMeta × Bool :=
  if (refillBucket now m).inputAllowance < 1 then (refillBucket now m, false)
  else (consumeToken now (refillBucket now m), true)

/-- Runs the bucket over a sequence of input-frame arrival times, counting
how many frames pass the gate. -/
def bucketRun : List ℚ → ClientMeta → ClientMeta × ℕ
  | [], m => (m, 0)
  | t :: ts, m =>
    if (inputGate t m).2 then
      ((bucketRun ts (inputGate t m).1).1, (bucketRun ts (inputGate t m).1).2 + 1)
    else bucketRun ts (inputGate t m).1

/-- Frames the server can deliver on the player socket (only the shapes the
claims mention). -/
inductive ServerMsg where
  | welcome
  | joined (roomId : ℕ) (playerId : ℕ)
  | errorMsg (code : String)
  | latency (rttMs : ℚ)
  | pongMsg (now : ℚ) (pingId : Option ℚ)
  deriving DecidableEq

/-- A JavaScript number as seen by `typeof x === 'number'`: either a finite
value or `NaN`/`±Infinity`. -/
inductive JsNum where
  | finite (val : ℚ)
  | nonFinite
  deriving DecidableEq

/-- A parsed frame on the player socket.  `hello`'s field is `none` when
`msg.name` is not a string; `input`'s `playerId` is `none` when not a
string; `pong`'s `pingId` is `none` when not a number.  `unknownFrame` is a
JSON object with an unrecognized tag, `malformedFrame` a text that fails
`JSON.parse`. -/
inductive ClientMsg where
  | hello (name : Option String)
  | input (playerId : Option ℕ) (directionRad : Option JsNum) (boosting : Option Bool)
  | pong (pingId : Option ℚ)
  | ping (pingId : Option ℚ)
  | unknownFrame
  | malformedFrame
  deriving DecidableEq

/-- JavaScript `String.prototype.trim`: strip whitespace on both sides. -/
def jsTrim (s : String) : String :=
  ⟨((s.data.dropWhile Char.isWhitespace).reverse.dropWhile Char.isWhitespace).reverse⟩

/-- JavaScript `.slice(0, 20)`: the first 20 code units. -/
def jsSlice20 (s : String) : String :=
  ⟨s.data.take 20⟩

/-- JavaScript `String.prototype.toLowerCase`. -/
def jsToLower (s : String) : String :=
  ⟨s.data.map Char.toLower⟩

/-- The random draws `hello` consumes: `Math.random()` for the spawn
heading, the result of `pickSpawnPosition`, and the two `uuidv4()` draws. -/
structure HelloOracle where
  dirRand : ℚ
  spawnPos : Vector2
  playerId : ℕ
  roomId : ℕ

/-- `RoomManager.getRoom` (a `Map.get`, embedded as first match by id). -/
def getRoom (st : ServerState) (id : ℕ) : Option GameRoom :=
  st.rooms.find? (fun r => r.id == id)

/-- Rewrites the room stored under `id` (a `Map` value mutated in place). -/
def updateRoom (rooms : List GameRoom) (id : ℕ) (f : GameRoom → GameRoom) :
    List GameRoom :=
  rooms.map (fun r => if r.id = id then f r else r)

/-- Rewrites the player stored under `id` inside a room's player map. -/
def updatePlayer (players : List Player) (id : ℕ) (f : Player → Player) :
    List Player :=
  players.map (fun p => if p.id = id then f p else p)

/-- `RoomManager.createRoom` restricted to the simulation fields
(`emptySince: Date.now()`). -/
def createRoom (id : ℕ) (now : ℚ) (config : RoomConfig) : GameRoom :=
  { id := id, config := config, players := [], foods := [],
    isClosed := false, emptySince := some now }

/-- `RoomManager.findRoomWithSlot`: first open room with a free slot in map
iteration (insertion) order, else a freshly created room from the default
config; returns the room together with the updated manager state. -/
def findRoomWithSlot (newRoomId : ℕ) (now : ℚ) (st : ServerState) :
    GameRoom × ServerState :=
  match st.rooms.find?
      (fun r => !r.isClosed && decide ((r.players.length : ℚ) < r.config.maxPlayers)) with
  | some r => (r, st)
  | none =>
    let r := createRoom newRoomId now st.defaultConfig
    (r, { st with rooms := st.rooms ++ [r] })

/-- The `ws.on('message')` handler of the player socket, lines 394-487 of
the source.  Returns the sender's updated session record, the updated
process state, and the frames sent back to the sender.  Note that the
source updates `lastMessageAt` only after the `try`/`catch`, so every
recognized frame kind `return`s before reaching it. -/
def handleMessage (pi : ℚ) (orc : HelloOracle) (now : ℚ) (ws : ℕ)
    (msg : ClientMsg) (meta : ClientMeta) (st : ServerState) :
    ClientMeta × ServerState × List ServerMsg :=
  match msg with
  | .hello rawName =>
    let name := jsSlice20 (jsTrim (rawName.getD ""))
    if name = "" then (meta, st, [.errorMsg "INVALID_NAME"])
    else if st.bannedNames.contains (jsToLower name) then (meta, st, [.errorMsg "BANNED"])
    else if meta.roomId.isSome then (meta, st, [])
    else
      let found := findRoomWithSlot orc.roomId now st
      let spawnDir := orc.dirRand * pi * 2
      let player : Player :=
        { id := orc.playerId, name := name, score := 10,
          position := orc.spawnPos, directionRad := spawnDir,
          targetDirectionRad := spawnDir, boosting := false, ws := ws,
          bodyPoints := [orc.spawnPos] }
      let st2 :=
        { found.2 with
          rooms := updateRoom found.2.rooms found.1.id
            (fun r => { r with players := r.players ++ [player], emptySince := none }) }
      ({ meta with roomId := some found.1.id }, st2, [.joined found.1.id orc.playerId])
  | .input playerId directionRad boosting =>
    match meta.roomId with
    | none => (meta, st, [])
    | some rid =>
      match getRoom st rid with
      | none => (meta, st, [])
      | some room =>
        match playerId with
        | none => (meta, st, [])
        | some pid =>
          match room.players.find? (fun p => p.id == pid) with
          | none => (meta, st, [])
          | some player =>
            if player.ws ≠ ws then
              (meta,
               { st with metrics :=
                  { st.metrics with
                    inputSpoofRejected := st.metrics.inputSpoofRejected + 1 } },
               [])
            else
              let g := inputGate now meta
              if g.2 then
                match directionRad with
                | some .nonFinite =>
                  (g.1,
                   { st with metrics :=
                      { st.metrics with inputInvalid := st.metrics.inputInvalid + 1 } },
                   [])
                | _ =>
                  let player1 :=
                    match directionRad with
                    | some (.finite d) =>
                      { player with targetDirectionRad := normalizeAngle pi d }
                    | _ => player
                  let player2 :=
                    match boosting with
                    | some b => { player1 with boosting := b }
                    | none => player1
                  let rooms2 := updateRoom st.rooms room.id
                    (fun r => { r with
                      players := updatePlayer r.players player.id (fun _ => player2) })
                  (g.1, { st with rooms := rooms2 }, [])
              else
                (g.1,
                 { st with metrics :=
                    { st.metrics with inputThrottled := st.metrics.inputThrottled + 1 } },
                 [])
  | .pong pingId =>
    match pingId with
    | some idv =>
      if meta.lastPingId = some idv then
        match meta.lastPingSentAt with
        | some sentAt =>
          ({ meta with rttMs := some (now - sentAt), lastPongAt := some now },
           st, [.latency (now - sentAt)])
        | none => (meta, st, [])
      else (meta, st, [])
    | none => ({ meta with lastMessageAt := some now }, st, [])
  | .ping pingId => (meta, st, [.pongMsg now pingId])
  | .unknownFrame => ({ meta with lastMessageAt := some now }, st, [])
  | .malformedFrame => ({ meta with lastMessageAt := some now }, st, [])

/-- The per-player body of the motion phase of the simulation tick
(`// Move players (bounded turn rate)`).  `cosD`/`sinD` embed
`Math.cos`/`Math.sin` evaluated at the player's updated heading, `sqrtO`
embeds `Math.sqrt`, `seg` embeds `Math.hypot`.  The probabilistic boost
pellet drop mutates the room's food list only, never the player, and is
modelled with the food phase, not here. -/
def tickMovePlayer (pi : ℚ) (sqrtO : ℚ → ℚ) (seg : Vector2 → Vector2 → ℚ)
    (cosD sinD : ℚ) (dt : ℚ) (config : RoomConfig) (p : Player) : Player :=
  let maxTurn := computeMaxTurnRate sqrtO p.score * dt
  let dir := rotateTowards pi p.directionRad p.targetDirectionRad maxTurn
  let speed := computeSpeed p.score p.boosting
  let dx := cosD * speed * dt
  let dy := sinD * speed * dt
  let x := max (-config.mapSize) (min config.mapSize (p.position.x + dx))
  let y := max (-config.mapSize) (min config.mapSize (p.position.y + dy))
  let body := trimBodyToLength seg (p.bodyPoints ++ [⟨x, y⟩])
    (computeTargetLength p.score config)
  let score1 :=
    if p.boosting && decide (1 < p.score) then
      p.score - max 0.1 (min 1.5 (p.score * 0.002))
    else p.score
  { p with
    directionRad := dir
    position := ⟨x, y⟩
    bodyPoints := body
    score := score1 }

/-- The score gain of eating one food
(`const gain = food.value * Math.max(0, room.config.foodValueMultiplier ?? 1)`). -/
def foodGain (config : RoomConfig) (value : ℚ) : ℚ :=
  value * max 0 config.foodValueMultiplier

/-- The inline `distPointSeg2` helper of the collision phase. -/
def distPointSeg2 (px py ax ay bx _by : ℚ) : ℚ :=
  let abx := bx - ax
  let aby := _by - ay
  let apx := px - ax
  let apy := py - ay
  let ab2 := abx * abx + aby * aby
  let t := if 0 < ab2 then max 0 (min 1 ((apx * abx + apy * aby) / ab2)) else 0
  let qx := ax + t * abx
  let qy := ay + t * aby
  let dx := px - qx
  let dy := py - qy
  dx * dx + dy * dy

/-- `a`'s head against `b`'s body segments: stride 3, excluding the last 12
head-adjacent points, second endpoint index clamped to `len - 13`
(`for (let k = 0; k < b.bodyPoints.length - 12; k += 3)`). -/
def bodyCollisionHit (a : Player) (aR : ℚ) (b : Player) (bR : ℚ) : Bool :=
  let n := b.bodyPoints.length
  ((List.range n).filter (fun k => k % 3 == 0 && k + 12 < n)).any (fun k =>
    match b.bodyPoints.get? k, b.bodyPoints.get? (min (k + 1) (n - 13)) with
    | some p1, some p2 =>
      let d2 := distPointSeg2 a.position.x a.position.y p1.x p1.y p2.x p2.y
      let bodyThickness := max 3 (bR * 0.6)
      decide (d2 < (aR + bodyThickness) * (aR + bodyThickness))
    | _, _ => false)

/-- The inner `j` loop of the collision scan for a fixed attacker `a`:
quick head-distance reject, body-segment hit (pushes `a.id`), the
`if (deaths.includes(a.id)) break;` check, then the head-to-head rule.
The `Bool` in the fold state models the `break`. -/
def collisionInner (sqrtO : ℚ → ℚ) (config : RoomConfig) (arr : List Player)
    (i : ℕ) (a : Player) (aR : ℚ) (deaths0 : List ℕ) : List ℕ :=
  ((List.range arr.length).foldl (fun st j =>
    if st.2 then st
    else if j = i then st
    else
      match arr.get? j with
      | none => st
      | some b =>
        let deaths := st.1
        let bR := computeRadius sqrtO b.score config
        let far2 := (aR + bR + 200) * (aR + bR + 200)
        if far2 < distanceSquared a.position b.position then (deaths, false)
        else
          let deaths1 := if bodyCollisionHit a aR b bR then deaths ++ [a.id] else deaths
          if a.id ∈ deaths1 then (deaths1, true)
          else
            let hh2 := distanceSquared a.position b.position
            let thresh := (aR + bR) * (aR + bR) * 0.5
            if hh2 < thresh then
              (if a.score < b.score then deaths1 ++ [a.id]
               else if b.score < a.score then deaths1 ++ [b.id]
               else deaths1 ++ [a.id], false)
            else (deaths1, false))
    (deaths0, false)).1

/-- The full collision scan (`// Collisions detection`): for each ordered
index pair `(i, j)`, `i ≠ j`; the attacker is skipped when already dead
(`if (deaths.includes(a.id)) continue;`). -/
def collisionDeaths (sqrtO : ℚ → ℚ) (config : RoomConfig)
    (arr : List Player) : List ℕ :=
  (List.range arr.length).foldl (fun deaths i =>
    match arr.get? i with
    | none => deaths
    | some a =>
      if a.id ∈ deaths then deaths
      else collisionInner sqrtO config arr i a (computeRadius sqrtO a.score config) deaths)
    []

/-- Reason recorded by `RoomManager.closeRoom`. -/
inductive CloseReason where
  | manual
  | timeout_empty
  deriving DecidableEq

/-- The empty-room bookkeeping at the head of the per-room tick (lines
`if (room.players.size === 0) { ... }` / `else { room.emptySince = null }`):
returns the room as kept by the manager (`none` when closed and removed),
the close events emitted, and the `roomsClosedTimeout` increment. -/
def tickRoomGC (now : ℚ) (room : GameRoom) :
    Option GameRoom × List (ℕ × CloseReason) × ℕ :=
  if room.isClosed then (some room, [], 0)
  else if room.players.length = 0 then
    if 0 < max 0 room.config.emptyRoomTtlSeconds ∧
        max 0 room.config.emptyRoomTtlSeconds * 1000 ≤
          now - room.emptySince.getD now then
      (none, [(room.id, CloseReason.timeout_empty)], 1)
    else (some { room with emptySince := some (room.emptySince.getD now) }, [], 0)
  else (some { room with emptySince := none }, [], 0)

/-- The empty-room bookkeeping applied across the manager's room list, as
the tick interval does. -/
def tickGC (now : ℚ) : List GameRoom → List GameRoom × List (ℕ × CloseReason) × ℕ
  | [] => ([], [], 0)
  | room :: rest =>
    ((match (tickRoomGC now room).1 with
      | some r => r :: (tickGC now rest).1
      | none => (tickGC now rest).1),
     (tickRoomGC now room).2.1 ++ (tickGC now rest).2.1,
     (tickRoomGC now room).2.2 + (tickGC now rest).2.2)

/-- One entry of the per-recipient `players` payload: id, name, rounded
score and rounded position (JavaScript `Math.round` is `⌊x + 1/2⌋`, which
is Mathlib's `round`). -/
structure PEntry where
  id : ℕ
  name : String
  score : ℤ
  posX : ℤ
  posY : ℤ
  deriving DecidableEq

/-- Renders one player into its payload entry. -/
def renderPlayer (p : Player) : PEntry :=
  { id := p.id, name := p.name, score := round p.score,
    posX := round p.position.x, posY := round p.position.y }

/-- The `players near recipient (always include self)` loop of the
broadcast publisher: iterate the room's players in insertion order; the
recipient is pushed unconditionally (no cap check), any other player is
pushed when within 2600 units and then `if (playersPayload.length >= 40)
break;`. -/
def buildPlayersAux (recipient : Player) :
    List Player → List PEntry → List PEntry
  | [], acc => acc
  | p :: rest, acc =>
    if p.id = recipient.id then
      buildPlayersAux recipient rest (acc ++ [renderPlayer p])
    else if distanceSquared p.position recipient.position ≤ 2600 * 2600 then
      if 40 ≤ (acc ++ [renderPlayer p]).length then acc ++ [renderPlayer p]
      else buildPlayersAux recipient rest (acc ++ [renderPlayer p])
    else buildPlayersAux recipient rest acc

/-- The per-recipient `players` payload. -/
def buildPlayersPayload (recipient : Player) (players : List Player) :
    List PEntry :=
  buildPlayersAux recipient players []

/-- One entry of the per-recipient `foods` payload: id, rounded position,
value rounded to one decimal. -/
structure FEntry where
  id : ℕ
  posX : ℤ
  posY : ℤ
  value : ℚ
  deriving DecidableEq

/-- Renders one food into its payload entry
(`value: Math.round(f.value * 10) / 10`). -/
def renderFood (f : Food) : FEntry :=
  { id := f.id, posX := round f.position.x, posY := round f.position.y,
    value := (round (f.value * 10) : ℚ) / 10 }

/-- The `foods near recipient` loop of the broadcast publisher: foods
within 1800 units pushed in insertion order, `if (visibleFoods.length >=
250) break;` after each push. -/
def buildFoodsAux (recipient : Player) : List Food → List FEntry → List FEntry
  | [], acc => acc
  | f :: rest, acc =>
    if distanceSquared f.position recipient.position ≤ 1800 * 1800 then
      if 250 ≤ (acc ++ [renderFood f]).length then acc ++ [renderFood f]
      else buildFoodsAux recipient rest (acc ++ [renderFood f])
    else buildFoodsAux recipient rest acc

/-- The per-recipient `foods` payload. -/
def buildVisibleFoods (recipient : Player) (foods : List Food) : List FEntry :=
  buildFoodsAux recipient foods []

/-! ### Concrete fixtures used by the evaluation theorems -/

/-- `DEFAULT_ROOM_CONFIG` of the source. -/
def DEFAULT_ROOM_CONFIG : RoomConfig :=
  { mapSize := 5000, maxPlayers := 100, foodCoveragePercent := 2,
    foodSpawnRatePerSecond := 200, emptyRoomTtlSeconds := 60,
    suctionRadiusMultiplier := 1, suctionStrengthMultiplier := 0.6,
    foodValueMultiplier := 1, foodNearPlayerTarget := 80,
    bodyRadiusMultiplier := 1, bodyLengthMultiplier := 1 }

/-- The zeroed process counters. -/
def metrics0 : Metrics :=
  { inputSpoofRejected := 0, inputInvalid := 0, inputThrottled := 0,
    roomsClosedTimeout := 0 }

/-- The session record created in `wss.on('connection')`: unbound, a full
input bucket, `lastMessageAt = Date.now()`. -/
def freshMeta (id : ℕ) (now : ℚ) : ClientMeta :=
  { id := id, roomId := none, lastPingId := none, lastPingSentAt := none,
    rttMs := none, lastPongAt := none, lastInputAt := none,
    lastMessageAt := some now, inputAllowance := INPUT_BUCKET_CAPACITY,
    inputRefillAt := now }

/-- A server state with no rooms and nobody banned. -/
def st0 : ServerState :=
  { rooms := [], defaultConfig := DEFAULT_ROOM_CONFIG, bannedNames := [],
    metrics := metrics0 }

/-- Fixed random draws for `hello`: `Math.random() = 3/4` for the heading. -/
def orc0 : HelloOracle :=
  { dirRand := 3 / 4, spawnPos := ⟨0, 0⟩, playerId := 5, roomId := 7 }

/-- A session that connected at time 1000 and did nothing since. -/
def meta1 : ClientMeta := freshMeta 1 1000

/-- First collision fixture: score 10 at the origin, one-point body. -/
def cpA : Player :=
  { id := 0, name := "a", score := 10, position := ⟨0, 0⟩, directionRad := 0,
    targetDirectionRad := 0, boosting := false, ws := 1,
    bodyPoints := [⟨0, 0⟩] }

/-- Same position and score as `cpA`, inserted second. -/
def cpB : Player := { cpA with id := 1, ws := 2 }

/-- Same position as `cpA` but score 5 (the lower-score case). -/
def cpC : Player := { cpA with id := 2, ws := 3, score := 5 }

/-- Stand-in for `Math.sqrt` in the closed evaluations below, exact enough
on the few arguments that occur (`√5 ↦ 2`, `√10 ↦ 3`); every verdict
proved with it is insensitive to the oracle's exact value, as only signs
and coarse comparisons of the derived radii matter. -/
def sqrtEval (q : ℚ) : ℚ :=
  if q < 5 then 1 else if q < 9 then 2 else 3

/-- Stand-in for `Math.hypot` in the closed evaluations below: the taxicab
length, which agrees exactly with the Euclidean length on the axis-aligned
segments used by those evaluations. -/
def segTaxi (a b : Vector2) : ℚ :=
  |a.x - b.x| + |a.y - b.y|

/-! ### C1 -/

/-- C1: the claim says every frame — hello, input, ping, pong, unknown,
malformed alike — updates the session's `lastMessageAt`.  The code writes
`lastMessageAt` only after the dispatch, and every recognized kind
`return`s before reaching that line, so a session that connected at time
1000 and receives a recognized frame at time 5000 keeps
`lastMessageAt = 1000`; only unknown or malformed frames update it.  (The
idle reaper then evicts such a session as `inactive` after 10 minutes even
while it is actively steering, contradicting the stated intent.) -/
theorem recognized_frames_skip_lastMessageAt :
    ((handleMessage 3 orc0 5000 1 (.ping none) meta1 st0).1.lastMessageAt = some 1000) ∧
    ((handleMessage 3 orc0 5000 1 (.pong (some 2)) meta1 st0).1.lastMessageAt = some 1000) ∧
    ((handleMessage 3 orc0 5000 1 (.hello (some "bob")) meta1 st0).1.lastMessageAt = some 1000) ∧
    ((handleMessage 3 orc0 5000 1 (.input (some 5) none none) meta1 st0).1.lastMessageAt = some 1000) ∧
    ((handleMessage 3 orc0 5000 1 .unknownFrame meta1 st0).1.lastMessageAt = some 5000) ∧
    ((handleMessage 3 orc0 5000 1 .malformedFrame meta1 st0).1.lastMessageAt = some 5000) := by
  refine ⟨rfl, ?_, rfl, rfl, rfl, rfl⟩
  simp [handleMessage, meta1, freshMeta]

/-! ### C2 -/

/-- C2: head-to-head with equal scores.  The claim (and the spec's
tie-break) says exactly one of the two players — `a`, the first inserted —
dies.  The collision scan visits ordered pairs, so the tie-break
`deaths.push(a.id)` fires once with each player in the attacker role:
with two equal-score players whose heads coincide, both ids are marked
dead and both are removed.  The second conjunct checks the unequal-score
half of the rule: there only the lower-score player (id 2) dies. -/
theorem head_to_head_tie_kills_both :
    collisionDeaths sqrtEval DEFAULT_ROOM_CONFIG [cpA, cpB] = [0, 1] ∧
    collisionDeaths sqrtEval DEFAULT_ROOM_CONFIG [cpA, cpC] = [2] := by
  constructor <;>
    norm_num [collisionDeaths, collisionInner, bodyCollisionHit, computeRadius,
      distanceSquared, cpA, cpB, cpC, DEFAULT_ROOM_CONFIG, sqrtEval, max_def,
      List.range_succ]

/-! ### C4 -/

/-- `normalizeAngle` maps the value `pi` itself to `-pi` (the claim's
interval `(-pi, pi]` would require it to stay at `pi`). -/
theorem normalizeAngle_self (p : ℚ) (hp : p ≠ 0) : normalizeAngle p p = -p := by
  have h1 : (p + p) / (p * 2) = 1 := by
    field_simp
    ring
  show p + p - (⌊(p + p) / (p * 2)⌋ : ℚ) * (p * 2) - p = -p
  rw [h1]
  push_cast [Int.floor_one]
  ring

/-- `normalizeAngle` always lands in the half-open interval `[-pi, pi)`. -/
theorem normalizeAngle_mem (p : ℚ) (hp : 0 < p) (x : ℚ) :
    -p ≤ normalizeAngle p x ∧ normalizeAngle p x < p := by
  unfold normalizeAngle
  have h2p : (0 : ℚ) < p * 2 := by linarith
  constructor
  · have := Int.sub_floor_div_mul_nonneg (x + p) h2p
    linarith
  · have := Int.sub_floor_div_mul_lt (x + p) h2p
    linarith

/-- C4 counterexample: the claim puts every normalized angle and every
heading in `(-π, π]`.  First conjunct: `normalizeAngle` sends `π` itself
(an accepted finite `directionRad`) to `-π`, which is outside `(-π, π]`
(the code's interval is `[-π, π)`).  Second and third conjuncts: a `hello`
with spawn draw `Math.random() = 3/4` leaves the new player's heading at
the raw value `(3/4)·2π = 1065/226 > π = 355/113` — the spawn heading is
never normalized.  (`355/113` stands for the value of `Math.PI`; both
facts hold for every positive value of the `pi` oracle.) -/
theorem angle_interval_cex :
    ¬ (-(355 / 113 : ℚ) < normalizeAngle (355 / 113) (355 / 113)) ∧
    ((handleMessage (355 / 113) orc0 0 1 (.hello (some "w")) meta1 st0).2.1.rooms.map
      (fun r => r.players.map Player.directionRad) = [[1065 / 226]]) ∧
    ¬ ((1065 / 226 : ℚ) ≤ 355 / 113) := by
  refine ⟨?_, ?_, by norm_num⟩
  · rw [normalizeAngle_self (355 / 113) (by norm_num)]
    norm_num
  · have h1 : ¬ (jsSlice20 (jsTrim "w") = "") := by decide
    have h2 : (st0.bannedNames.contains (jsToLower (jsSlice20 (jsTrim "w")))) = false := by
      decide
    simp [handleMessage, h1, h2, findRoomWithSlot, createRoom, updateRoom, orc0,
      meta1, freshMeta, st0, metrics0]
    norm_num

/-- C4 amended: `normalizeAngle` wraps into the half-open interval
`[-π, π)`, so the stored target direction of every accepted input and the
heading produced by every motion update (`rotateTowards` renormalizes) lie
in `[-π, π)`; immediately after join, however, the heading is the raw
spawn draw `Math.random()·2π`, which only satisfies `0 ≤ heading < 2π`. -/
theorem angle_interval_amended (pi : ℚ) (hpi : 0 < pi) :
    (∀ x : ℚ, -pi ≤ normalizeAngle pi x ∧ normalizeAngle pi x < pi) ∧
    (∀ c t m : ℚ, -pi ≤ rotateTowards pi c t m ∧ rotateTowards pi c t m < pi) ∧
    (∀ r : ℚ, 0 ≤ r → r < 1 → 0 ≤ r * pi * 2 ∧ r * pi * 2 < pi * 2) := by
  refine ⟨fun x => normalizeAngle_mem pi hpi x, fun c t m => ?_, fun r hr hr1 => ?_⟩
  · unfold rotateTowards
    exact normalizeAngle_mem pi hpi _
  · constructor
    · positivity
    · nlinarith

/-- Witness for the amended C4 theorem at `pi = 3`, `x = 10`. -/
theorem angle_interval_amended_witness :
    -(3 : ℚ) ≤ normalizeAngle 3 10 ∧ normalizeAngle 3 10 < 3 :=
  (angle_interval_amended 3 (by norm_num)).1 10

/-! ### C6 -/

/-- C6: after a motion step the score stays non-negative (the boost decay
`max(0.1, min(1.5, 0.002·score))` fires only when `score > 1` and never
exceeds the score) and both head coordinates are clamped into
`[-mapSize, mapSize]`; the food-consumption gain
`food.value · max(0, foodValueMultiplier)` is non-negative for any
non-negatively valued food. -/
theorem score_position_invariant (pi : ℚ) (sqrtO : ℚ → ℚ)
    (seg : Vector2 → Vector2 → ℚ) (cosD sinD dt : ℚ) (config : RoomConfig)
    (p : Player) (hscore : 0 ≤ p.score) (hmap : 0 ≤ config.mapSize) :
    (0 ≤ (tickMovePlayer pi sqrtO seg cosD sinD dt config p).score ∧
     |(tickMovePlayer pi sqrtO seg cosD sinD dt config p).position.x| ≤ config.mapSize ∧
     |(tickMovePlayer pi sqrtO seg cosD sinD dt config p).position.y| ≤ config.mapSize) ∧
    (∀ v : ℚ, 0 ≤ v → 0 ≤ foodGain config v) := by
  refine ⟨⟨?_, ?_, ?_⟩, fun v hv => mul_nonneg hv (le_max_left 0 _)⟩
  · simp only [tickMovePlayer]
    split_ifs with h
    · simp only [Bool.and_eq_true, decide_eq_true_eq] at h
      have hd : max 0.1 (min 1.5 (p.score * 0.002)) ≤ p.score := by
        apply max_le
        · linarith [h.2]
        · have : p.score * 0.002 ≤ p.score := by nlinarith
          exact le_trans (min_le_right _ _) this
      linarith
    · exact hscore
  · simp only [tickMovePlayer]
    rw [abs_le]
    constructor
    · exact le_max_left _ _
    · exact max_le (by linarith) (min_le_left _ _)
  · simp only [tickMovePlayer]
    rw [abs_le]
    constructor
    · exact le_max_left _ _
    · exact max_le (by linarith) (min_le_left _ _)

/-- Witness for C6 at a concrete motion step of the fixture player. -/
theorem score_position_invariant_witness :
    0 ≤ (tickMovePlayer 3 sqrtEval segTaxi 1 0 (1 / 20) DEFAULT_ROOM_CONFIG cpA).score :=
  ((score_position_invariant 3 sqrtEval segTaxi 1 0 (1 / 20) DEFAULT_ROOM_CONFIG cpA
    (by norm_num [cpA]) (by norm_num [DEFAULT_ROOM_CONFIG])).1).1

/-! ### C7: arc-length bound of the trimmed body -/

/-- `trimAuxR` always returns a list starting with its `prev` argument. -/
theorem trimAuxR_cons (seg : Vector2 → Vector2 → ℚ) (tgt : ℚ) :
    ∀ (rest : List Vector2) (total : ℚ) (prev : Vector2),
      ∃ l, trimAuxR seg tgt total prev rest = prev :: l := by
  intro rest total prev
  cases rest with
  | nil => exact ⟨[], rfl⟩
  | cons p r =>
    unfold trimAuxR
    split_ifs
    · exact ⟨[p], rfl⟩
    · exact ⟨_, rfl⟩

/-- Invariant of the trim walk: the arc length of what it keeps, plus the
length already accumulated, stays within the target plus one segment. -/
theorem trim_arc (seg : Vector2 → Vector2 → ℚ) (tgt : ℚ) :
    ∀ (rest : List Vector2) (prev : Vector2) (total : ℚ), total ≤ tgt →
      arcLength seg (trimAuxR seg tgt total prev rest) + total ≤
        tgt + maxSegment seg (prev :: rest) := by
  intro rest
  induction rest with
  | nil =>
    intro prev total h
    have h1 : trimAuxR seg tgt total prev [] = [prev] := rfl
    have h2 : arcLength seg [prev] = 0 := rfl
    have h3 : maxSegment seg [prev] = 0 := rfl
    rw [h1, h2, h3]
    linarith
  | cons p r ih =>
    intro prev total h
    have hmax : maxSegment seg (prev :: p :: r) =
        max (seg prev p) (maxSegment seg (p :: r)) := rfl
    unfold trimAuxR
    split_ifs with hlt
    · have h1 : arcLength seg [prev, p] = seg prev p + 0 := rfl
      have h2 : seg prev p ≤ max (seg prev p) (maxSegment seg (p :: r)) :=
        le_max_left _ _
      rw [h1, hmax]
      linarith
    · obtain ⟨l, hl⟩ := trimAuxR_cons seg tgt r (total + seg prev p) p
      rw [hl]
      have harc : arcLength seg (prev :: p :: l) =
          seg prev p + arcLength seg (p :: l) := rfl
      rw [harc, ← hl]
      have hih := ih p (total + seg prev p) (le_of_not_lt hlt)
      have h2 : maxSegment seg (p :: r) ≤
          max (seg prev p) (maxSegment seg (p :: r)) := le_max_right _ _
      rw [hmax]
      linarith

/-- Arc length of a list extended by one point. -/
theorem arcLength_append_last (seg : Vector2 → Vector2 → ℚ) :
    ∀ (l : List Vector2) (x : Vector2),
      arcLength seg (l ++ [x]) =
        arcLength seg l + (l.getLast?.elim 0 fun y => seg y x) := by
  intro l
  induction l with
  | nil => intro x; simp [arcLength]
  | cons a l ih =>
    intro x
    cases l with
    | nil => simp [arcLength]
    | cons b t =>
      have h1 : arcLength seg ((a :: b :: t) ++ [x]) =
          seg a b + arcLength seg ((b :: t) ++ [x]) := rfl
      have h2 : arcLength seg (a :: b :: t) = seg a b + arcLength seg (b :: t) := rfl
      rw [h1, ih x, h2, List.getLast?_cons_cons]
      ring

/-- Arc length is invariant under reversal for a symmetric segment oracle. -/
theorem arcLength_reverse (seg : Vector2 → Vector2 → ℚ)
    (hsymm : ∀ a b, seg a b = seg b a) :
    ∀ l : List Vector2, arcLength seg l.reverse = arcLength seg l := by
  intro l
  induction l with
  | nil => rfl
  | cons a l ih =>
    rw [List.reverse_cons, arcLength_append_last, ih]
    cases l with
    | nil => simp [arcLength]
    | cons b t =>
      have hlast : (List.reverse (b :: t)).getLast? = some b := by
        rw [List.reverse_cons, List.getLast?_concat]
      rw [hlast]
      show arcLength seg (b :: t) + seg b a = arcLength seg (a :: b :: t)
      have h2 : arcLength seg (a :: b :: t) = seg a b + arcLength seg (b :: t) := rfl
      rw [h2, hsymm b a]
      ring

/-- Largest segment of a list extended by one point. -/
theorem maxSegment_append_last (seg : Vector2 → Vector2 → ℚ) :
    ∀ (l : List Vector2) (x : Vector2),
      maxSegment seg (l ++ [x]) =
        max (maxSegment seg l) (l.getLast?.elim 0 fun y => seg y x) := by
  intro l
  induction l with
  | nil => intro x; simp [maxSegment]
  | cons a l ih =>
    intro x
    cases l with
    | nil =>
      have h1 : maxSegment seg [a, x] = max (seg a x) 0 := rfl
      have h2 : maxSegment seg [a] = 0 := rfl
      rw [show ([a] ++ [x]) = [a, x] from rfl, h1, h2]
      simp [max_comm]
    | cons b t =>
      have h1 : maxSegment seg ((a :: b :: t) ++ [x]) =
          max (seg a b) (maxSegment seg ((b :: t) ++ [x])) := rfl
      have h2 : maxSegment seg (a :: b :: t) =
          max (seg a b) (maxSegment seg (b :: t)) := rfl
      rw [h1, ih x, h2, List.getLast?_cons_cons, max_assoc]

/-- The largest segment is invariant under reversal for a symmetric oracle. -/
theorem maxSegment_reverse (seg : Vector2 → Vector2 → ℚ)
    (hsymm : ∀ a b, seg a b = seg b a) :
    ∀ l : List Vector2, maxSegment seg l.reverse = maxSegment seg l := by
  intro l
  induction l with
  | nil => rfl
  | cons a l ih =>
    rw [List.reverse_cons, maxSegment_append_last, ih]
    cases l with
    | nil => simp [maxSegment]
    | cons b t =>
      have hlast : (List.reverse (b :: t)).getLast? = some b := by
        rw [List.reverse_cons, List.getLast?_concat]
      rw [hlast]
      show max (maxSegment seg (b :: t)) (seg b a) = maxSegment seg (a :: b :: t)
      have h2 : maxSegment seg (a :: b :: t) =
          max (seg a b) (maxSegment seg (b :: t)) := rfl
      rw [h2, hsymm b a, max_comm]

/-- The largest segment is non-negative for a non-negative oracle. -/
theorem maxSegment_nonneg (seg : Vector2 → Vector2 → ℚ)
    (hnn : ∀ a b, 0 ≤ seg a b) : ∀ l : List Vector2, 0 ≤ maxSegment seg l := by
  intro l
  cases l with
  | nil => exact le_refl 0
  | cons a l =>
    cases l with
    | nil => exact le_refl 0
    | cons b t =>
      exact le_trans (hnn a b) (le_max_left _ _)

/-- The arc length of the trimmed body is at most the target plus one
segment, and trimming never empties a non-empty body. -/
theorem trimBody_arc_bound (seg : Vector2 → Vector2 → ℚ)
    (hnn : ∀ a b, 0 ≤ seg a b) (hsymm : ∀ a b, seg a b = seg b a)
    (pts : List Vector2) (tgt : ℚ) (htgt : 0 ≤ tgt) :
    arcLength seg (trimBodyToLength seg pts tgt) ≤ tgt + maxSegment seg pts ∧
    (pts ≠ [] → trimBodyToLength seg pts tgt ≠ []) := by
  unfold trimBodyToLength
  split_ifs with hlen
  · refine ⟨?_, fun h => h⟩
    have h0 : arcLength seg pts = 0 := by
      cases pts with
      | nil => rfl
      | cons a t =>
        cases t with
        | nil => rfl
        | cons b r => simp at hlen
    rw [h0]
    have := maxSegment_nonneg seg hnn pts
    linarith
  · cases hrev : pts.reverse with
    | nil =>
      exfalso
      rw [List.reverse_eq_nil_iff] at hrev
      rw [hrev] at hlen
      simp at hlen
    | cons h rest =>
      constructor
      · rw [arcLength_reverse seg hsymm]
        have hta := trim_arc seg tgt rest h 0 htgt
        have hms : maxSegment seg (h :: rest) = maxSegment seg pts := by
          rw [← hrev, maxSegment_reverse seg hsymm]
        linarith
      · intro _
        show (trimAuxR seg tgt 0 h rest).reverse ≠ []
        obtain ⟨l, hl⟩ := trimAuxR_cons seg tgt rest 0 h
        rw [hl]
        simp

/-- C7 amended: after the motion phase appends the new head and trims, the
body's total arc length is at most `computeTargetLength(score, config) =
(120 + 2.5·score) · max(0.1, bodyLengthMultiplier)` plus the maximum
segment of the appended polyline, and the body keeps at least one point.
(The claim's formula without the `max(0.1, ·)` floor fails when
`bodyLengthMultiplier < 0.1`, see the counterexample.) -/
theorem body_trim_invariant (pi : ℚ) (sqrtO : ℚ → ℚ)
    (seg : Vector2 → Vector2 → ℚ) (cosD sinD dt : ℚ) (config : RoomConfig)
    (p : Player) (hnn : ∀ a b, 0 ≤ seg a b)
    (hsymm : ∀ a b, seg a b = seg b a) (hscore : 0 ≤ p.score) :
    (tickMovePlayer pi sqrtO seg cosD sinD dt config p).bodyPoints ≠ [] ∧
    arcLength seg (tickMovePlayer pi sqrtO seg cosD sinD dt config p).bodyPoints ≤
      computeTargetLength p.score config +
        maxSegment seg
          (p.bodyPoints ++ [(tickMovePlayer pi sqrtO seg cosD sinD dt config p).position]) := by
  have htgt : 0 ≤ computeTargetLength p.score config := by
    unfold computeTargetLength
    have h1 : (0.1 : ℚ) ≤ max 0.1 config.bodyLengthMultiplier := le_max_left _ _
    nlinarith
  simp only [tickMovePlayer]
  constructor
  · exact (trimBody_arc_bound seg hnn hsymm _ _ htgt).2 (by simp)
  · exact (trimBody_arc_bound seg hnn hsymm _ _ htgt).1

/-- Witness for the amended C7 theorem at a concrete motion step. -/
theorem body_trim_invariant_witness :
    (tickMovePlayer 3 sqrtEval segTaxi 1 0 (1 / 20) DEFAULT_ROOM_CONFIG cpA).bodyPoints ≠ [] :=
  (body_trim_invariant 3 sqrtEval segTaxi 1 0 (1 / 20) DEFAULT_ROOM_CONFIG cpA
    (fun a b => add_nonneg (abs_nonneg _) (abs_nonneg _))
    (fun a b => by simp [segTaxi, abs_sub_comm])
    (by norm_num [cpA])).1

/-- Modelled from the spec: `targetLength(score) = (120 + 2.5·score) ·
bodyLengthMultiplier`, the formula as written in the claim and in
§4.3.1/§8 of the spec — without the `max(0.1, ·)` floor the code applies
in `computeTargetLength`. -/
def specTargetLength (score : ℚ) (config : RoomConfig) : ℚ :=
  (120 + 2.5 * score) * config.bodyLengthMultiplier

/-- The default config with the admissible value `bodyLengthMultiplier = 0`
(the admin schema allows `0 ≤ bodyLengthMultiplier ≤ 10`). -/
def cfg7 : RoomConfig := { DEFAULT_ROOM_CONFIG with bodyLengthMultiplier := 0 }

/-- A score-10 player about to extend its 3-point straight body to `(30, 0)`. -/
def p7 : Player :=
  { cpA with position := ⟨20, 0⟩, bodyPoints := [⟨0, 0⟩, ⟨10, 0⟩, ⟨20, 0⟩] }

/-- C7 counterexample: with `bodyLengthMultiplier = 0` the claim's bound
`targetLength(score) + maxSegment = (120 + 2.5·10)·0 + 10 = 10` is
violated: the code trims to `computeTargetLength = 145 · max(0.1, 0) =
14.5`, keeping a body of arc length 20.  (The oracles: `cosD = 52/55`
makes the head advance exactly 10 units; `segTaxi` agrees with
`Math.hypot` on these axis-aligned segments.) -/
theorem body_trim_spec_cex :
    arcLength segTaxi
      (tickMovePlayer (355 / 113) sqrtEval segTaxi (52 / 55) 0 (1 / 20) cfg7 p7).bodyPoints = 20 ∧
    specTargetLength p7.score cfg7 +
      maxSegment segTaxi
        (p7.bodyPoints ++
          [(tickMovePlayer (355 / 113) sqrtEval segTaxi (52 / 55) 0 (1 / 20) cfg7 p7).position]) = 10 ∧
    ¬ ((20 : ℚ) ≤ 10) := by
  have hpos :
      (tickMovePlayer (355 / 113) sqrtEval segTaxi (52 / 55) 0 (1 / 20) cfg7 p7).position =
        ⟨30, 0⟩ := by
    simp only [tickMovePlayer, p7, cpA, cfg7, DEFAULT_ROOM_CONFIG, computeSpeed]
    norm_num [max_def, min_def]
  have hbody :
      (tickMovePlayer (355 / 113) sqrtEval segTaxi (52 / 55) 0 (1 / 20) cfg7 p7).bodyPoints =
        [⟨10, 0⟩, ⟨20, 0⟩, ⟨30, 0⟩] := by
    simp only [tickMovePlayer, p7, cpA, cfg7, DEFAULT_ROOM_CONFIG, computeSpeed,
      computeTargetLength]
    norm_num [max_def, min_def, trimBodyToLength, trimAuxR, segTaxi]
  refine ⟨?_, ?_, by norm_num⟩
  · rw [hbody]
    norm_num [arcLength, segTaxi]
  · rw [hpos]
    norm_num [specTargetLength, maxSegment, segTaxi, p7, cpA, cfg7,
      DEFAULT_ROOM_CONFIG, max_def]

/-! ### C5: the input token bucket -/

/-- After a refill with a monotone clock, `inputRefillAt` is the frame time. -/
theorem refillBucket_refillAt (now : ℚ) (m : ClientMeta)
    (h : m.inputRefillAt ≤ now) : (refillBucket now m).inputRefillAt = now := by
  unfold refillBucket
  split_ifs with hp
  · rfl
  · have h1 : (now - m.inputRefillAt) / 1000 ≤ 0 := le_of_not_lt hp
    have h3 : now - m.inputRefillAt = (now - m.inputRefillAt) / 1000 * 1000 := by
      field_simp
    show m.inputRefillAt = now
    linarith

/-- A refill never lifts the allowance above the capacity 45. -/
theorem refillBucket_cap (now : ℚ) (m : ClientMeta)
    (h : m.inputAllowance ≤ 45) : (refillBucket now m).inputAllowance ≤ 45 := by
  unfold refillBucket
  split_ifs with hp
  · show min INPUT_BUCKET_CAPACITY
      (m.inputAllowance + (now - m.inputRefillAt) / 1000 * INPUTS_PER_SECOND) ≤ 45
    unfold INPUT_BUCKET_CAPACITY
    exact min_le_left _ _
  · exact h

/-- A refill with a monotone clock keeps the allowance non-negative. -/
theorem refillBucket_nonneg (now : ℚ) (m : ClientMeta)
    (h0 : 0 ≤ m.inputAllowance) :
    0 ≤ (refillBucket now m).inputAllowance := by
  unfold refillBucket
  split_ifs with hp
  · show 0 ≤ min INPUT_BUCKET_CAPACITY
      (m.inputAllowance + (now - m.inputRefillAt) / 1000 * INPUTS_PER_SECOND)
    unfold INPUT_BUCKET_CAPACITY INPUTS_PER_SECOND
    refine le_min (by norm_num) ?_
    nlinarith [le_of_lt hp]
  · exact h0

/-- A refill adds at most `30/1000` allowance per elapsed millisecond. -/
theorem refillBucket_le_linear (now : ℚ) (m : ClientMeta)
    (hr : m.inputRefillAt ≤ now) :
    (refillBucket now m).inputAllowance ≤
      m.inputAllowance + (now - m.inputRefillAt) * (30 / 1000) := by
  unfold refillBucket
  split_ifs with hp
  · show min INPUT_BUCKET_CAPACITY
      (m.inputAllowance + (now - m.inputRefillAt) / 1000 * INPUTS_PER_SECOND) ≤ _
    unfold INPUT_BUCKET_CAPACITY INPUTS_PER_SECOND
    refine le_trans (min_le_right _ _) (le_of_eq ?_)
    ring
  · have h4 : 0 ≤ (now - m.inputRefillAt) * (30 / 1000) :=
      mul_nonneg (by linarith) (by norm_num)
    linarith

/-- Equation of the gate in the throttled case. -/
theorem inputGate_throttle (now : ℚ) (m : ClientMeta)
    (h : (refillBucket now m).inputAllowance < 1) :
    inputGate now m = (refillBucket now m, false) := by
  unfold inputGate
  rw [if_pos h]

/-- Equation of the gate in the accepted case. -/
theorem inputGate_accept (now : ℚ) (m : ClientMeta)
    (h : ¬ (refillBucket now m).inputAllowance < 1) :
    inputGate now m = (consumeToken now (refillBucket now m), true) := by
  unfold inputGate
  rw [if_neg h]

/-- Run equation for a throttled frame: state refilled, count unchanged. -/
theorem bucketRun_cons_throttle (t : ℚ) (ts : List ℚ) (m : ClientMeta)
    (h : (refillBucket t m).inputAllowance < 1) :
    bucketRun (t :: ts) m = bucketRun ts (refillBucket t m) := by
  simp only [bucketRun]
  rw [inputGate_throttle t m h]
  simp

/-- Run equations for an accepted frame: one token consumed, count +1. -/
theorem bucketRun_cons_accept (t : ℚ) (ts : List ℚ) (m : ClientMeta)
    (h : ¬ (refillBucket t m).inputAllowance < 1) :
    (bucketRun (t :: ts) m).1 =
      (bucketRun ts (consumeToken t (refillBucket t m))).1 ∧
    (bucketRun (t :: ts) m).2 =
      (bucketRun ts (consumeToken t (refillBucket t m))).2 + 1 := by
  simp only [bucketRun]
  rw [inputGate_accept t m h]
  simp

/-- The allowance never exceeds the capacity 45 over any run of frames. -/
theorem bucketRun_cap :
    ∀ (ts : List ℚ) (m : ClientMeta), m.inputAllowance ≤ 45 →
      (bucketRun ts m).1.inputAllowance ≤ 45 := by
  intro ts
  induction ts with
  | nil => intro m h; exact h
  | cons t ts ih =>
    intro m h
    by_cases hth : (refillBucket t m).inputAllowance < 1
    · rw [bucketRun_cons_throttle t ts m hth]
      exact ih _ (refillBucket_cap t m h)
    · rw [(bucketRun_cons_accept t ts m hth).1]
      apply ih
      show (refillBucket t m).inputAllowance - 1 ≤ 45
      have := refillBucket_cap t m h
      linarith

/-- Uncapped refill budget: the number of accepted frames in a run is
bounded by the starting allowance plus the refill earned up to the horizon. -/
theorem bucketRun_le (U : ℚ) :
    ∀ (ts : List ℚ) (m : ClientMeta),
      List.Pairwise (· ≤ ·) ts →
      (∀ t ∈ ts, m.inputRefillAt ≤ t ∧ t ≤ U) →
      m.inputRefillAt ≤ U →
      0 ≤ m.inputAllowance → m.inputAllowance ≤ 45 →
      ((bucketRun ts m).2 : ℚ) ≤
        m.inputAllowance + (U - m.inputRefillAt) * (30 / 1000) := by
  intro ts
  induction ts with
  | nil =>
    intro m _ _ hU h0 _
    show ((0 : ℕ) : ℚ) ≤ _
    have h4 : 0 ≤ (U - m.inputRefillAt) * (30 / 1000) :=
      mul_nonneg (by linarith) (by norm_num)
    push_cast
    linarith
  | cons t ts ih =>
    intro m hpw hmem hU h0 hcap
    obtain ⟨hrt, htU⟩ := hmem t (by simp)
    have hts : ∀ s ∈ ts, t ≤ s := (List.pairwise_cons.mp hpw).1
    have hpw2 : List.Pairwise (· ≤ ·) ts := (List.pairwise_cons.mp hpw).2
    have hr1 : (refillBucket t m).inputRefillAt = t := refillBucket_refillAt t m hrt
    have h1cap : (refillBucket t m).inputAllowance ≤ 45 := refillBucket_cap t m hcap
    have h1nn : 0 ≤ (refillBucket t m).inputAllowance := refillBucket_nonneg t m h0
    have h1lin : (refillBucket t m).inputAllowance ≤
        m.inputAllowance + (t - m.inputRefillAt) * (30 / 1000) :=
      refillBucket_le_linear t m hrt
    have hk : (0 : ℚ) < 30 / 1000 := by norm_num
    by_cases hth : (refillBucket t m).inputAllowance < 1
    · rw [bucketRun_cons_throttle t ts m hth]
      have hrec := ih (refillBucket t m) hpw2
        (fun s hs => ⟨by rw [hr1]; exact hts s hs, (hmem s (by simp [hs])).2⟩)
        (by rw [hr1]; exact htU) h1nn h1cap
      rw [hr1] at hrec
      nlinarith [hrec, hrt]
    · rw [(bucketRun_cons_accept t ts m hth).2]
      have hge : 1 ≤ (refillBucket t m).inputAllowance := not_lt.mp hth
      have hc1 : (consumeToken t (refillBucket t m)).inputRefillAt = t := hr1
      have hc2 : (consumeToken t (refillBucket t m)).inputAllowance =
          (refillBucket t m).inputAllowance - 1 := rfl
      have hrec := ih (consumeToken t (refillBucket t m)) hpw2
        (fun s hs => ⟨by rw [hc1]; exact hts s hs, (hmem s (by simp [hs])).2⟩)
        (by rw [hc1]; exact htU)
        (by rw [hc2]; linarith)
        (by rw [hc2]; linarith)
      rw [hc1, hc2] at hrec
      push_cast
      nlinarith [hrec, hrt]

/-- Windowed bound: at most `30 + 45` frames pass the gate in any
1000-millisecond window. -/
theorem bucketRun_window (T : ℚ) :
    ∀ (ts : List ℚ) (m : ClientMeta),
      List.Pairwise (· ≤ ·) ts →
      (∀ t ∈ ts, T ≤ t ∧ t ≤ T + 1000) →
      (∀ t ∈ ts, m.inputRefillAt ≤ t) →
      0 ≤ m.inputAllowance → m.inputAllowance ≤ 45 →
      ((bucketRun ts m).2 : ℚ) ≤ 30 + 45 := by
  intro ts m hpw hwin hmono h0 hcap
  cases ts with
  | nil =>
    show ((0 : ℕ) : ℚ) ≤ _
    norm_num
  | cons t ts =>
    obtain ⟨hTt, htU⟩ := hwin t (by simp)
    have hrt : m.inputRefillAt ≤ t := hmono t (by simp)
    have hts : ∀ s ∈ ts, t ≤ s := (List.pairwise_cons.mp hpw).1
    have hpw2 : List.Pairwise (· ≤ ·) ts := (List.pairwise_cons.mp hpw).2
    have hr1 : (refillBucket t m).inputRefillAt = t := refillBucket_refillAt t m hrt
    have h1cap : (refillBucket t m).inputAllowance ≤ 45 := refillBucket_cap t m hcap
    have h1nn : 0 ≤ (refillBucket t m).inputAllowance := refillBucket_nonneg t m h0
    by_cases hth : (refillBucket t m).inputAllowance < 1
    · rw [bucketRun_cons_throttle t ts m hth]
      have hrec := bucketRun_le (T + 1000) ts (refillBucket t m) hpw2
        (fun s hs => ⟨by rw [hr1]; exact hts s hs, (hwin s (by simp [hs])).2⟩)
        (by rw [hr1]; exact htU) h1nn h1cap
      rw [hr1] at hrec
      nlinarith [hrec, hTt]
    · rw [(bucketRun_cons_accept t ts m hth).2]
      have hge : 1 ≤ (refillBucket t m).inputAllowance := not_lt.mp hth
      have hc1 : (consumeToken t (refillBucket t m)).inputRefillAt = t := hr1
      have hc2 : (consumeToken t (refillBucket t m)).inputAllowance =
          (refillBucket t m).inputAllowance - 1 := rfl
      have hrec := bucketRun_le (T + 1000) ts (consumeToken t (refillBucket t m)) hpw2
        (fun s hs => ⟨by rw [hc1]; exact hts s hs, (hwin s (by simp [hs])).2⟩)
        (by rw [hc1]; exact htU)
        (by rw [hc2]; linarith)
        (by rw [hc2]; linarith)
      rw [hc1, hc2] at hrec
      push_cast
      nlinarith [hrec, hTt]

/-! ### Input-branch equations of the message handler (used by C5 and C9) -/

/-- An input frame from a session not bound to any room is a silent no-op. -/
theorem handleMessage_input_unbound (pi : ℚ) (orc : HelloOracle) (now : ℚ)
    (ws : ℕ) (pid : Option ℕ) (dirOpt : Option JsNum) (boostOpt : Option Bool)
    (meta : ClientMeta) (st : ServerState) (h : meta.roomId = none) :
    handleMessage pi orc now ws (.input pid dirOpt boostOpt) meta st =
      (meta, st, []) := by
  simp only [handleMessage, h]

/-- An input frame addressing a player id absent from the room is a silent
no-op. -/
theorem handleMessage_input_noplayer (pi : ℚ) (orc : HelloOracle) (now : ℚ)
    (ws pid : ℕ) (dirOpt : Option JsNum) (boostOpt : Option Bool)
    (meta : ClientMeta) (st : ServerState) (rid : ℕ) (room : GameRoom)
    (hb : meta.roomId = some rid) (hroom : getRoom st rid = some room)
    (hfind : room.players.find? (fun p => p.id == pid) = none) :
    handleMessage pi orc now ws (.input (some pid) dirOpt boostOpt) meta st =
      (meta, st, []) := by
  simp only [handleMessage, hb, hroom, hfind]

/-- An input frame addressing a player bound to a different transport is
dropped with `inputSpoofRejected` incremented and nothing else changed. -/
theorem handleMessage_input_spoof (pi : ℚ) (orc : HelloOracle) (now : ℚ)
    (ws pid : ℕ) (dirOpt : Option JsNum) (boostOpt : Option Bool)
    (meta : ClientMeta) (st : ServerState) (rid : ℕ) (room : GameRoom)
    (player : Player)
    (hb : meta.roomId = some rid) (hroom : getRoom st rid = some room)
    (hfind : room.players.find? (fun p => p.id == pid) = some player)
    (hws : player.ws ≠ ws) :
    handleMessage pi orc now ws (.input (some pid) dirOpt boostOpt) meta st =
      (meta,
       { st with metrics :=
          { st.metrics with
            inputSpoofRejected := st.metrics.inputSpoofRejected + 1 } },
       []) := by
  simp only [handleMessage, hb, hroom, hfind]
  simp [hws]

/-- An input frame arriving with a refilled allowance below 1 is dropped
with `inputThrottled` incremented; the room state is untouched and the
session keeps the refilled (not consumed) bucket. -/
theorem handleMessage_input_throttled (pi : ℚ) (orc : HelloOracle) (now : ℚ)
    (ws pid : ℕ) (dirOpt : Option JsNum) (boostOpt : Option Bool)
    (meta : ClientMeta) (st : ServerState) (rid : ℕ) (room : GameRoom)
    (player : Player)
    (hb : meta.roomId = some rid) (hroom : getRoom st rid = some room)
    (hfind : room.players.find? (fun p => p.id == pid) = some player)
    (hws : player.ws = ws)
    (hth : (refillBucket now meta).inputAllowance < 1) :
    handleMessage pi orc now ws (.input (some pid) dirOpt boostOpt) meta st =
      (refillBucket now meta,
       { st with metrics :=
          { st.metrics with inputThrottled := st.metrics.inputThrottled + 1 } },
       []) := by
  simp only [handleMessage, hb, hroom, hfind]
  rw [if_neg (by simp [hws])]
  rw [inputGate_throttle now meta hth]
  simp

/-! ### C5 claim theorem -/

/-- C5: the per-session bucket has capacity 45 and refills at 30 tokens per
second (the named constants); the allowance never exceeds 45 after any
sequence of input frames and refills; an accepted frame consumes exactly
one token; a frame whose (refilled) allowance is below 1 is dropped with
`inputThrottled` incremented and no room mutation; and any 1000 ms window
admits at most `30 + 45` accepted input frames. -/
theorem token_bucket_spec :
    ((INPUT_BUCKET_CAPACITY : ℚ) = 45 ∧ (INPUTS_PER_SECOND : ℚ) = 30) ∧
    (∀ (ts : List ℚ) (m : ClientMeta), m.inputAllowance ≤ 45 →
      (bucketRun ts m).1.inputAllowance ≤ 45) ∧
    (∀ (now : ℚ) (m : ClientMeta), ¬ (refillBucket now m).inputAllowance < 1 →
      inputGate now m = (consumeToken now (refillBucket now m), true) ∧
      (consumeToken now (refillBucket now m)).inputAllowance =
        (refillBucket now m).inputAllowance - 1) ∧
    (∀ (pi : ℚ) (orc : HelloOracle) (now : ℚ) (ws pid : ℕ)
       (dirOpt : Option JsNum) (boostOpt : Option Bool) (meta : ClientMeta)
       (st : ServerState) (rid : ℕ) (room : GameRoom) (player : Player),
      meta.roomId = some rid → getRoom st rid = some room →
      room.players.find? (fun p => p.id == pid) = some player →
      player.ws = ws → (refillBucket now meta).inputAllowance < 1 →
      handleMessage pi orc now ws (.input (some pid) dirOpt boostOpt) meta st =
        (refillBucket now meta,
         { st with metrics :=
            { st.metrics with inputThrottled := st.metrics.inputThrottled + 1 } },
         [])) ∧
    (∀ (T : ℚ) (ts : List ℚ) (m : ClientMeta),
      List.Pairwise (· ≤ ·) ts →
      (∀ t ∈ ts, T ≤ t ∧ t ≤ T + 1000) →
      (∀ t ∈ ts, m.inputRefillAt ≤ t) →
      0 ≤ m.inputAllowance → m.inputAllowance ≤ 45 →
      ((bucketRun ts m).2 : ℚ) ≤ 30 + 45) := by
  refine ⟨⟨rfl, rfl⟩, bucketRun_cap, ?_, ?_, bucketRun_window⟩
  · intro now m h
    exact ⟨inputGate_accept now m h, rfl⟩
  · intro pi orc now ws pid dirOpt boostOpt meta st rid room player hb hroom hfind hws hth
    exact handleMessage_input_throttled pi orc now ws pid dirOpt boostOpt meta st
      rid room player hb hroom hfind hws hth

/-- Witness for C5: two frames at times 0 and 500 on a fresh session stay
within the windowed bound. -/
theorem token_bucket_spec_witness :
    ((bucketRun [0, 500] (freshMeta 1 0)).2 : ℚ) ≤ 30 + 45 := by
  apply token_bucket_spec.2.2.2.2 0 [0, 500] (freshMeta 1 0)
  · norm_num [List.pairwise_cons]
  · intro t ht
    simp only [List.mem_cons, List.mem_singleton] at ht
    rcases ht with rfl | rfl | h
    · norm_num
    · norm_num
    · simp at h
  · intro t ht
    simp only [List.mem_cons, List.mem_singleton] at ht
    rcases ht with rfl | rfl | h
    · norm_num [freshMeta]
    · norm_num [freshMeta]
    · simp at h
  · norm_num [freshMeta, INPUT_BUCKET_CAPACITY]
  · norm_num [freshMeta, INPUT_BUCKET_CAPACITY]

/-! ### C9 -/

/-- C9: an input frame addressing a player bound to a different session is
dropped with `inputSpoofRejected` incremented and no other state change —
in particular no field of the addressed player (the room list is returned
untouched); the same drop-without-mutation (without the counter) holds
when the sender's session is not bound to a room or the addressed
`playerId` does not exist in that room. -/
theorem input_anti_spoof (pi : ℚ) (orc : HelloOracle) (now : ℚ)
    (ws pid : ℕ) (dirOpt : Option JsNum) (boostOpt : Option Bool)
    (meta : ClientMeta) (st : ServerState) :
    (meta.roomId = none →
      handleMessage pi orc now ws (.input (some pid) dirOpt boostOpt) meta st =
        (meta, st, [])) ∧
    (∀ (rid : ℕ) (room : GameRoom), meta.roomId = some rid →
      getRoom st rid = some room →
      room.players.find? (fun p => p.id == pid) = none →
      handleMessage pi orc now ws (.input (some pid) dirOpt boostOpt) meta st =
        (meta, st, [])) ∧
    (∀ (rid : ℕ) (room : GameRoom) (player : Player), meta.roomId = some rid →
      getRoom st rid = some room →
      room.players.find? (fun p => p.id == pid) = some player →
      player.ws ≠ ws →
      handleMessage pi orc now ws (.input (some pid) dirOpt boostOpt) meta st =
        (meta,
         { st with metrics :=
            { st.metrics with
              inputSpoofRejected := st.metrics.inputSpoofRejected + 1 } },
         [])) := by
  refine ⟨?_, ?_, ?_⟩
  · intro h
    exact handleMessage_input_unbound pi orc now ws (some pid) dirOpt boostOpt meta st h
  · intro rid room hb hroom hfind
    exact handleMessage_input_noplayer pi orc now ws pid dirOpt boostOpt meta st
      rid room hb hroom hfind
  · intro rid room player hb hroom hfind hws
    exact handleMessage_input_spoof pi orc now ws pid dirOpt boostOpt meta st
      rid room player hb hroom hfind hws

/-- A room holding only the fixture player `cpA` (whose transport is 1). -/
def roomB : GameRoom :=
  { id := 3, config := DEFAULT_ROOM_CONFIG, players := [cpA], foods := [],
    isClosed := false, emptySince := none }

/-- A server state holding only `roomB`. -/
def stB : ServerState :=
  { rooms := [roomB], defaultConfig := DEFAULT_ROOM_CONFIG, bannedNames := [],
    metrics := metrics0 }

/-- The session of a different transport (9), bound to room 3. -/
def metaB : ClientMeta := { freshMeta 9 0 with roomId := some 3 }

/-- Witness for C9: transport 5 sends `input{playerId: 0}` for the player
owned by transport 1; the frame is dropped, only `inputSpoofRejected`
changes. -/
theorem input_anti_spoof_witness :
    handleMessage 3 orc0 0 5 (.input (some 0) none none) metaB stB =
      (metaB,
       { stB with metrics :=
          { stB.metrics with
            inputSpoofRejected := stB.metrics.inputSpoofRejected + 1 } },
       []) :=
  (input_anti_spoof 3 orc0 0 5 0 none none metaB stB).2.2 3 roomB cpA
    (by rfl)
    (by simp [getRoom, stB, roomB])
    (by simp [roomB, cpA])
    (by simp [cpA])

/-! ### C10 -/

/-- Updating the room stored under `rid` rewrites exactly the first-found
room with that id, for any id-preserving rewrite. -/
theorem updateRoom_find (rooms : List GameRoom) (rid : ℕ)
    (f : GameRoom → GameRoom) (hf : ∀ r, (f r).id = r.id) :
    List.find? (fun r => r.id == rid) (updateRoom rooms rid f) =
      (List.find? (fun r => r.id == rid) rooms).map f := by
  induction rooms with
  | nil => rfl
  | cons r rs ih =>
    unfold updateRoom
    by_cases hid : r.id = rid
    · rw [List.map_cons, if_pos hid]
      rw [List.find?_cons_of_pos _ (by simp [hf r, hid]),
        List.find?_cons_of_pos _ (by simp [hid])]
      rfl
    · rw [List.map_cons, if_neg hid]
      rw [List.find?_cons_of_neg _ (by simp [hid]),
        List.find?_cons_of_neg _ (by simp [hid])]
      exact ih

/-- With pairwise-distinct ids, looking a member room up by its id finds
that room. -/
theorem getRoom_mem (rooms : List GameRoom) (r : GameRoom)
    (hnd : (rooms.map GameRoom.id).Nodup) (hmem : r ∈ rooms) :
    List.find? (fun q => q.id == r.id) rooms = some r := by
  induction rooms with
  | nil => simp at hmem
  | cons a rs ih =>
    simp only [List.map_cons, List.nodup_cons] at hnd
    rcases List.mem_cons.mp hmem with rfl | hmem2
    · exact List.find?_cons_of_pos _ (by simp)
    · by_cases hid : a.id = r.id
      · exfalso
        apply hnd.1
        rw [hid]
        exact List.mem_map_of_mem GameRoom.id hmem2
      · rw [List.find?_cons_of_neg _ (by simp [hid])]
        exact ih hnd.2 hmem2

/-- The room chosen by `findRoomWithSlot` is in the resulting manager
state, ids stay pairwise distinct, and the other process fields are
untouched. -/
theorem findRoomWithSlot_props (newRoomId : ℕ) (now : ℚ) (st : ServerState)
    (hnd : (st.rooms.map GameRoom.id).Nodup)
    (hfresh : newRoomId ∉ st.rooms.map GameRoom.id) :
    (findRoomWithSlot newRoomId now st).1 ∈ (findRoomWithSlot newRoomId now st).2.rooms ∧
    (((findRoomWithSlot newRoomId now st).2.rooms.map GameRoom.id).Nodup) := by
  unfold findRoomWithSlot
  cases hf : st.rooms.find?
      (fun r => !r.isClosed && decide ((r.players.length : ℚ) < r.config.maxPlayers)) with
  | some r => exact ⟨List.mem_of_find?_eq_some hf, hnd⟩
  | none =>
    constructor
    · simp
    · simp only [List.map_append]
      rw [List.nodup_append]
      refine ⟨hnd, by simp [createRoom], ?_⟩
      intro a ha
      simp [createRoom]
      intro heq
      rw [heq] at ha
      exact hfresh ha

/-- C10: a successful hello — non-empty trimmed name, not banned, session
not yet bound — binds the session to the chosen room and appends to that
room a player with score exactly 10, `boosting = false`, a one-point body
at the spawn position, equal initial and target headings (the raw spawn
draw), the sender's transport, and clears the room's `emptySince`; a
`joined` frame with the room and player ids goes back to the sender. -/
theorem hello_join (pi : ℚ) (orc : HelloOracle) (now : ℚ) (ws : ℕ)
    (rawName : String) (meta : ClientMeta) (st : ServerState)
    (hname : jsSlice20 (jsTrim rawName) ≠ "")
    (hban : st.bannedNames.contains (jsToLower (jsSlice20 (jsTrim rawName))) = false)
    (hfree : meta.roomId = none)
    (hnd : (st.rooms.map GameRoom.id).Nodup)
    (hfresh : orc.roomId ∉ st.rooms.map GameRoom.id) :
    (handleMessage pi orc now ws (.hello (some rawName)) meta st).1.roomId =
      some (findRoomWithSlot orc.roomId now st).1.id ∧
    getRoom (handleMessage pi orc now ws (.hello (some rawName)) meta st).2.1
        (findRoomWithSlot orc.roomId now st).1.id =
      some { (findRoomWithSlot orc.roomId now st).1 with
             players := (findRoomWithSlot orc.roomId now st).1.players ++
               [{ id := orc.playerId, name := jsSlice20 (jsTrim rawName),
                  score := 10, position := orc.spawnPos,
                  directionRad := orc.dirRand * pi * 2,
                  targetDirectionRad := orc.dirRand * pi * 2,
                  boosting := false, ws := ws, bodyPoints := [orc.spawnPos] }],
             emptySince := none } ∧
    (handleMessage pi orc now ws (.hello (some rawName)) meta st).2.2 =
      [.joined (findRoomWithSlot orc.roomId now st).1.id orc.playerId] := by
  have hprops := findRoomWithSlot_props orc.roomId now st hnd hfresh
  simp only [handleMessage, Option.getD]
  rw [if_neg hname]
  rw [if_neg (by rw [hban]; simp)]
  rw [if_neg (by rw [hfree]; simp)]
  refine ⟨rfl, ?_, rfl⟩
  unfold getRoom
  dsimp only
  rw [updateRoom_find]
  · rw [getRoom_mem _ _ hprops.2 hprops.1]
    rfl
  · intro r
    rfl

/-- Witness for C10: a fresh session says hello with name "bob" against an
empty manager. -/
theorem hello_join_witness :
    (handleMessage 3 orc0 0 1 (.hello (some "bob")) meta1 st0).1.roomId =
      some (findRoomWithSlot orc0.roomId 0 st0).1.id :=
  (hello_join 3 orc0 0 1 "bob" meta1 st0
    (by decide) (by decide) (by rfl) (by simp [st0]) (by simp [st0])).1

/-! ### C8 -/

/-- A room the per-room step keeps has an unchanged id. -/
theorem tickRoomGC_id (now : ℚ) (room r2 : GameRoom)
    (h : (tickRoomGC now room).1 = some r2) : r2.id = room.id := by
  unfold tickRoomGC at h
  split_ifs at h with h1 h2 h3 <;>
    · have h4 := Option.some.inj h
      rw [← h4]

/-- A due empty room is closed by the per-room step: removed, a
`timeout_empty` event emitted, the counter bumped by one. -/
theorem tickRoomGC_closes (now : ℚ) (room : GameRoom) (e : ℚ)
    (hopen : room.isClosed = false) (hempty : room.players = [])
    (hes : room.emptySince = some e)
    (httl : 0 < room.config.emptyRoomTtlSeconds)
    (hdue : room.config.emptyRoomTtlSeconds * 1000 ≤ now - e) :
    tickRoomGC now room = (none, [(room.id, CloseReason.timeout_empty)], 1) := by
  have hmax : max 0 room.config.emptyRoomTtlSeconds =
      room.config.emptyRoomTtlSeconds := max_eq_right (le_of_lt httl)
  unfold tickRoomGC
  rw [if_neg (by simp [hopen]), if_pos (by simp [hempty]),
    if_pos ⟨by rw [hmax]; exact httl, by rw [hmax, hes]; simpa using hdue⟩]

/-- With `ttl = 0` the per-room step keeps an empty room. -/
theorem tickRoomGC_ttl0 (now : ℚ) (room : GameRoom)
    (hopen : room.isClosed = false) (hempty : room.players = [])
    (httl : room.config.emptyRoomTtlSeconds = 0) :
    (tickRoomGC now room).1 =
      some { room with emptySince := some (room.emptySince.getD now) } := by
  unfold tickRoomGC
  rw [if_neg (by simp [hopen]), if_pos (by simp [hempty]),
    if_neg (by rw [httl]; simp)]

/-- Every kept room comes from some input room that the per-room step kept. -/
theorem tickGC_kept_src (now : ℚ) :
    ∀ (rooms : List GameRoom) (r2 : GameRoom), r2 ∈ (tickGC now rooms).1 →
      ∃ r ∈ rooms, (tickRoomGC now r).1 = some r2 := by
  intro rooms
  induction rooms with
  | nil => intro r2 h; simp [tickGC] at h
  | cons room rest ih =>
    intro r2 h
    simp only [tickGC] at h
    cases hr : (tickRoomGC now room).1 with
    | some kept =>
      rw [hr] at h
      rcases List.mem_cons.mp h with rfl | h2
      · exact ⟨room, by simp, hr⟩
      · obtain ⟨r, hrm, hrk⟩ := ih r2 h2
        exact ⟨r, by simp [hrm], hrk⟩
    | none =>
      rw [hr] at h
      obtain ⟨r, hrm, hrk⟩ := ih r2 h
      exact ⟨r, by simp [hrm], hrk⟩

/-- A room the per-room step keeps stays in the manager. -/
theorem tickGC_kept_mem (now : ℚ) :
    ∀ (rooms : List GameRoom) (room r2 : GameRoom), room ∈ rooms →
      (tickRoomGC now room).1 = some r2 → r2 ∈ (tickGC now rooms).1 := by
  intro rooms
  induction rooms with
  | nil => intro room r2 h; simp at h
  | cons a rest ih =>
    intro room r2 hmem hkeep
    simp only [tickGC]
    rcases List.mem_cons.mp hmem with rfl | h2
    · rw [hkeep]
      simp
    · cases hr : (tickRoomGC now a).1 with
      | some kept =>
        exact List.mem_cons_of_mem _ (ih room r2 h2 hkeep)
      | none =>
        exact ih room r2 h2 hkeep

/-- Close events of a member room appear in the manager's event list. -/
theorem tickGC_events (now : ℚ) :
    ∀ (rooms : List GameRoom) (room : GameRoom), room ∈ rooms →
      ∀ ev ∈ (tickRoomGC now room).2.1, ev ∈ (tickGC now rooms).2.1 := by
  intro rooms
  induction rooms with
  | nil => intro room h; simp at h
  | cons a rest ih =>
    intro room hmem ev hev
    simp only [tickGC, List.mem_append]
    rcases List.mem_cons.mp hmem with rfl | h2
    · exact Or.inl hev
    · exact Or.inr (ih room h2 ev hev)

/-- The manager's closed-room counter dominates each member's increment. -/
theorem tickGC_counter (now : ℚ) :
    ∀ (rooms : List GameRoom) (room : GameRoom), room ∈ rooms →
      (tickRoomGC now room).2.2 ≤ (tickGC now rooms).2.2 := by
  intro rooms
  induction rooms with
  | nil => intro room h; simp at h
  | cons a rest ih =>
    intro room hmem
    simp only [tickGC]
    rcases List.mem_cons.mp hmem with rfl | h2
    · exact Nat.le_add_right _ _
    · exact le_trans (ih room h2) (Nat.le_add_left _ _)

/-- C8: an open room with zero players whose `emptySince` is at least
`ttl` seconds old (for `ttl = emptyRoomTtlSeconds > 0`) is closed by the
next tick with reason `timeout_empty` and a `roomsClosedTimeout` increment,
after which no room with its id remains in the manager; with `ttl = 0` the
room is kept (auto-close disabled). -/
theorem empty_room_gc (now : ℚ) (rooms : List GameRoom) (room : GameRoom)
    (hmem : room ∈ rooms) (hnd : (rooms.map GameRoom.id).Nodup)
    (hopen : room.isClosed = false) (hempty : room.players = []) :
    (∀ e : ℚ, room.emptySince = some e →
      0 < room.config.emptyRoomTtlSeconds →
      room.config.emptyRoomTtlSeconds * 1000 ≤ now - e →
      room.id ∉ (tickGC now rooms).1.map GameRoom.id ∧
      (room.id, CloseReason.timeout_empty) ∈ (tickGC now rooms).2.1 ∧
      1 ≤ (tickGC now rooms).2.2) ∧
    (room.config.emptyRoomTtlSeconds = 0 →
      room.id ∈ (tickGC now rooms).1.map GameRoom.id) := by
  constructor
  · intro e hes httl hdue
    have hclose := tickRoomGC_closes now room e hopen hempty hes httl hdue
    refine ⟨?_, ?_, ?_⟩
    · intro habs
      obtain ⟨r2, hr2mem, hr2id⟩ := List.exists_of_mem_map habs
      obtain ⟨r, hrm, hrk⟩ := tickGC_kept_src now rooms r2 hr2mem
      have hid : r.id = room.id := by
        rw [← hr2id]
        exact (tickRoomGC_id now r r2 hrk).symm
      have : r = room := List.inj_on_of_nodup_map hnd hrm hmem hid
      rw [this, hclose] at hrk
      simp at hrk
    · apply tickGC_events now rooms room hmem
      rw [hclose]
      simp
    · have := tickGC_counter now rooms room hmem
      rw [hclose] at this
      exact le_trans (by norm_num) this
  · intro httl
    have hkeep := tickRoomGC_ttl0 now room hopen hempty httl
    have hm := tickGC_kept_mem now rooms room _ hmem hkeep
    exact List.mem_map.mpr ⟨_, hm, rfl⟩

/-- An open, empty fixture room with the default 60-second TTL, empty
since time 0. -/
def roomE : GameRoom :=
  { id := 4, config := DEFAULT_ROOM_CONFIG, players := [], foods := [],
    isClosed := false, emptySince := some 0 }

/-- Witness for C8: at `now = 60000` ms the fixture room is due and the
tick removes it. -/
theorem empty_room_gc_witness :
    (4 : ℕ) ∉ (tickGC 60000 [roomE]).1.map GameRoom.id ∧
    ((4 : ℕ), CloseReason.timeout_empty) ∈ (tickGC 60000 [roomE]).2.1 ∧
    1 ≤ (tickGC 60000 [roomE]).2.2 :=
  (empty_room_gc 60000 [roomE] roomE (by simp) (by simp [roomE])
      (by rfl) (by rfl)).1 0 (by rfl)
    (by norm_num [roomE, DEFAULT_ROOM_CONFIG])
    (by norm_num [roomE, DEFAULT_ROOM_CONFIG])

/-! ### C3 -/

/-- The rendered entry keeps the player's id. -/
theorem renderPlayer_id (p : Player) : (renderPlayer p).id = p.id := rfl

/-- The players loop only ever appends to its accumulator. -/
theorem buildPlayersAux_append (recipient : Player) :
    ∀ (rest : List Player) (acc : List PEntry),
      ∃ t, buildPlayersAux recipient rest acc = acc ++ t := by
  intro rest
  induction rest with
  | nil => intro acc; exact ⟨[], (List.append_nil acc).symm⟩
  | cons p r ih =>
    intro acc
    unfold buildPlayersAux
    split_ifs with hself hin hbr
    · obtain ⟨t, ht⟩ := ih (acc ++ [renderPlayer p])
      exact ⟨[renderPlayer p] ++ t, by rw [ht, List.append_assoc]⟩
    · exact ⟨[renderPlayer p], rfl⟩
    · obtain ⟨t, ht⟩ := ih (acc ++ [renderPlayer p])
      exact ⟨[renderPlayer p] ++ t, by rw [ht, List.append_assoc]⟩
    · exact ih acc

/-- Length bound of the players loop: the self push skips the cap check,
so the final list can exceed 40 by exactly the recipient's own entry. -/
theorem buildPlayersAux_len (recipient : Player) :
    ∀ (rest : List Player) (acc : List PEntry),
      acc.length ≤ 39 + acc.countP (fun e => e.id == recipient.id) →
      acc.countP (fun e => e.id == recipient.id) +
        rest.countP (fun p => p.id == recipient.id) ≤ 1 →
      (buildPlayersAux recipient rest acc).length ≤ 41 := by
  intro rest
  induction rest with
  | nil =>
    intro acc h1 h2
    unfold buildPlayersAux
    omega
  | cons p r ih =>
    intro acc h1 h2
    unfold buildPlayersAux
    split_ifs with hself hin hbr
    · refine ih (acc ++ [renderPlayer p]) ?_ ?_ <;>
        simp only [List.countP_cons, List.countP_append, List.countP_nil,
          List.length_append, List.length_cons, List.length_nil,
          renderPlayer_id, hself, beq_self_eq_true, if_true] at h1 h2 ⊢ <;>
        omega
    · simp only [List.length_append, List.length_cons, List.length_nil]
      omega
    · have hbeq : (p.id == recipient.id) = false := by
        simp [beq_iff_eq, hself]
      refine ih (acc ++ [renderPlayer p]) ?_ ?_ <;>
        simp only [List.countP_cons, List.countP_append, List.countP_nil,
          List.length_append, List.length_cons, List.length_nil,
          renderPlayer_id, hbeq, Bool.false_eq_true, if_false] at h1 h2 hbr ⊢ <;>
        omega
    · have hbeq : (p.id == recipient.id) = false := by
        simp [beq_iff_eq, hself]
      refine ih acc h1 ?_
      simp only [List.countP_cons, hbeq, Bool.false_eq_true, if_false] at h2
      omega

/-- Every emitted entry is the accumulator's or renders a scanned player
that is the recipient or lies within 2600 units. -/
theorem buildPlayersAux_range (recipient : Player) :
    ∀ (rest : List Player) (acc : List PEntry)
      (e : PEntry), e ∈ buildPlayersAux recipient rest acc →
      e ∈ acc ∨ ∃ p ∈ rest, e = renderPlayer p ∧
        (p.id = recipient.id ∨
         distanceSquared p.position recipient.position ≤ 2600 * 2600) := by
  intro rest
  induction rest with
  | nil =>
    intro acc e he
    unfold buildPlayersAux at he
    exact Or.inl he
  | cons p r ih =>
    intro acc e he
    unfold buildPlayersAux at he
    split_ifs at he with hself hin hbr
    · rcases ih _ e he with hacc | ⟨q, hq, hq2⟩
      · rcases List.mem_append.mp hacc with h | h
        · exact Or.inl h
        · refine Or.inr ⟨p, by simp, ?_, Or.inl hself⟩
          simpa using h
      · exact Or.inr ⟨q, by simp [hq], hq2⟩
    · rcases List.mem_append.mp he with h | h
      · exact Or.inl h
      · refine Or.inr ⟨p, by simp, ?_, Or.inr hin⟩
        simpa using h
    · rcases ih _ e he with hacc | ⟨q, hq, hq2⟩
      · rcases List.mem_append.mp hacc with h | h
        · exact Or.inl h
        · refine Or.inr ⟨p, by simp, ?_, Or.inr hin⟩
          simpa using h
      · exact Or.inr ⟨q, by simp [hq], hq2⟩
    · rcases ih _ e he with hacc | ⟨q, hq, hq2⟩
      · exact Or.inl hacc
      · exact Or.inr ⟨q, by simp [hq], hq2⟩

/-- When at most 40 players are scanned in total, the cap break cannot
fire before the recipient is reached, so its entry is always emitted. -/
theorem buildPlayersAux_self (recipient : Player) :
    ∀ (rest : List Player) (acc : List PEntry),
      recipient.id ∈ rest.map Player.id →
      acc.length + rest.length ≤ 40 →
      recipient.id ∈ (buildPlayersAux recipient rest acc).map PEntry.id := by
  intro rest
  induction rest with
  | nil => intro acc h; simp at h
  | cons p r ih =>
    intro acc hmem hlen
    rw [List.map_cons] at hmem
    unfold buildPlayersAux
    split_ifs with hself hin hbr
    · obtain ⟨t, ht⟩ := buildPlayersAux_append recipient r (acc ++ [renderPlayer p])
      rw [ht]
      simp only [List.map_append, List.mem_append]
      left
      right
      simp [renderPlayer_id, hself]
    · exfalso
      have hmem2 : recipient.id ∈ r.map Player.id := by
        rcases List.mem_cons.mp hmem with h | h
        · exact absurd h.symm hself
        · exact h
      have hr : r ≠ [] := by
        intro hrnil
        rw [hrnil] at hmem2
        simp at hmem2
      have h1 : 1 ≤ r.length := List.length_pos.mpr hr
      simp only [List.length_append, List.length_cons, List.length_nil] at hbr hlen
      omega
    · apply ih
      · rcases List.mem_cons.mp hmem with h | h
        · exact absurd h.symm hself
        · exact h
      · simp only [List.length_append, List.length_cons, List.length_nil] at hlen ⊢
        omega
    · apply ih
      · rcases List.mem_cons.mp hmem with h | h
        · exact absurd h.symm hself
        · exact h
      · simp only [List.length_cons] at hlen
        omega

/-- At most one scanned player carries the recipient's id when ids are
pairwise distinct. -/
theorem countP_self_le_one (recipient : Player) :
    ∀ (players : List Player), (players.map Player.id).Nodup →
      players.countP (fun p => p.id == recipient.id) ≤ 1 := by
  intro players
  induction players with
  | nil => intro _; simp
  | cons p r ih =>
    intro hnd
    simp only [List.map_cons, List.nodup_cons] at hnd
    rw [List.countP_cons]
    by_cases h : p.id = recipient.id
    · have h0 : r.countP (fun q => q.id == recipient.id) = 0 := by
        rw [List.countP_eq_zero]
        intro q hq
        simp only [beq_iff_eq]
        intro hqe
        apply hnd.1
        rw [h, ← hqe]
        exact List.mem_map_of_mem Player.id hq
      simp [h, h0]
    · have hbeq : (p.id == recipient.id) = false := by simp [beq_iff_eq, h]
      rw [hbeq]
      simpa using ih hnd.2

/-- The foods loop is exactly first-fit: the in-range foods in insertion
order, cut off at 250. -/
theorem buildFoodsAux_eq (recipient : Player) :
    ∀ (foods : List Food) (acc : List FEntry), acc.length < 250 →
      buildFoodsAux recipient foods acc =
        acc ++ ((foods.filter (fun f =>
          decide (distanceSquared f.position recipient.position ≤ 1800 * 1800))).map
            renderFood).take (250 - acc.length) := by
  intro foods
  induction foods with
  | nil => intro acc _; simp [buildFoodsAux]
  | cons f fs ih =>
    intro acc hlen
    unfold buildFoodsAux
    split_ifs with hin hbr
    · have h249 : acc.length = 249 := by
        simp only [List.length_append, List.length_cons, List.length_nil] at hbr
        omega
      rw [List.filter_cons_of_pos (by simpa using hin), List.map_cons, h249]
      norm_num
    · have hlt : (acc ++ [renderFood f]).length < 250 := by
        simp only [List.length_append, List.length_cons, List.length_nil] at hbr ⊢
        omega
      rw [ih (acc ++ [renderFood f]) hlt]
      rw [List.filter_cons_of_pos (by simpa using hin), List.map_cons]
      have hsucc : 250 - acc.length = (250 - (acc ++ [renderFood f]).length) + 1 := by
        simp only [List.length_append, List.length_cons, List.length_nil]
        omega
      rw [hsucc, List.take_succ_cons, List.append_assoc]
      rfl
    · rw [ih acc hlen, List.filter_cons_of_neg (by simpa using hin)]

/-- The per-recipient foods payload equals the first 250 in-range foods in
insertion order. -/
theorem buildVisibleFoods_eq (recipient : Player) (foods : List Food) :
    buildVisibleFoods recipient foods =
      ((foods.filter (fun f =>
        decide (distanceSquared f.position recipient.position ≤ 1800 * 1800))).map
          renderFood).take 250 := by
  unfold buildVisibleFoods
  rw [buildFoodsAux_eq recipient foods [] (by norm_num)]
  simp

/-- C3 amended: the players payload holds at most 41 entries (the self push
skips the cap check); every non-recipient entry renders a player within
2600 units; the recipient is included whenever the room holds at most 40
players — but at its insertion-order position, not first, and with more
than 40 players it can be cut off; the foods payload is exactly the first
250 foods within 1800 units in insertion order (first-fit). -/
theorem payload_caps_amended (recipient : Player) (players : List Player)
    (foods : List Food) (hnd : (players.map Player.id).Nodup) :
    (buildPlayersPayload recipient players).length ≤ 41 ∧
    (∀ e ∈ buildPlayersPayload recipient players, e.id ≠ recipient.id →
      ∃ p ∈ players, e = renderPlayer p ∧
        distanceSquared p.position recipient.position ≤ 2600 * 2600) ∧
    (recipient.id ∈ players.map Player.id → players.length ≤ 40 →
      recipient.id ∈ (buildPlayersPayload recipient players).map PEntry.id) ∧
    buildVisibleFoods recipient foods =
      ((foods.filter (fun f =>
        decide (distanceSquared f.position recipient.position ≤ 1800 * 1800))).map
          renderFood).take 250 ∧
    (buildVisibleFoods recipient foods).length ≤ 250 ∧
    (∀ e ∈ buildVisibleFoods recipient foods, ∃ f ∈ foods,
      e = renderFood f ∧
      distanceSquared f.position recipient.position ≤ 1800 * 1800) := by
  refine ⟨?_, ?_, ?_, buildVisibleFoods_eq recipient foods, ?_, ?_⟩
  · apply buildPlayersAux_len recipient players []
    · simp
    · simpa using countP_self_le_one recipient players hnd
  · intro e he hne
    rcases buildPlayersAux_range recipient players [] e he with h | ⟨p, hp, hpe, hcase⟩
    · simp at h
    · rcases hcase with hid | hdist
      · exact absurd (by rw [hpe, renderPlayer_id, hid]) hne
      · exact ⟨p, hp, hpe, hdist⟩
  · intro hmem hlen
    apply buildPlayersAux_self recipient players [] hmem
    simpa using hlen
  · rw [buildVisibleFoods_eq]
    exact List.length_take_le _ _
  · intro e he
    rw [buildVisibleFoods_eq] at he
    have he2 := List.take_subset _ _ he
    obtain ⟨f, hf, rfl⟩ := List.mem_map.mp he2
    have hf2 := List.mem_filter.mp hf
    exact ⟨f, hf2.1, rfl, by simpa using hf2.2⟩

/-- Witness for the amended C3 theorem: a room holding only the recipient. -/
theorem payload_caps_amended_witness :
    (buildPlayersPayload cpA [cpA]).length ≤ 41 :=
  (payload_caps_amended cpA [cpA] [] (by simp)).1

/-- Player `i` of the 41-player counterexample room, all at the origin. -/
def mkW (i : ℕ) : Player :=
  { id := i, name := "w", score := 10, position := ⟨0, 0⟩, directionRad := 0,
    targetDirectionRad := 0, boosting := false, ws := i, bodyPoints := [] }

/-- 41 players in insertion order, ids 0..40. -/
def players41 : List Player :=
  [mkW 0, mkW 1, mkW 2, mkW 3, mkW 4, mkW 5, mkW 6, mkW 7, mkW 8, mkW 9, mkW 10, mkW 11, mkW 12, mkW 13, mkW 14, mkW 15, mkW 16, mkW 17, mkW 18, mkW 19, mkW 20, mkW 21, mkW 22, mkW 23, mkW 24, mkW 25, mkW 26, mkW 27, mkW 28, mkW 29, mkW 30, mkW 31, mkW 32, mkW 33, mkW 34, mkW 35, mkW 36, mkW 37, mkW 38, mkW 39, mkW 40]

set_option maxHeartbeats 1600000 in
/-- C3 counterexample: the recipient is the player inserted 40th (id 39).
The loop pushes the 39 earlier players, then the recipient (no cap check),
then one more player before the `>= 40` break: 41 entries — above the
claimed cap of 40 — and the head of the payload is player 0, not the
recipient, refuting `recipient ... placed first`. -/
theorem payload_recipient_cex :
    (buildPlayersPayload (mkW 39) players41).length = 41 ∧
    ((buildPlayersPayload (mkW 39) players41).map PEntry.id).head? = some 0 ∧
    (mkW 39).id = 39 := by
  have hd : distanceSquared (⟨0, 0⟩ : Vector2) (⟨0, 0⟩ : Vector2) ≤ 2600 * 2600 := by
    norm_num [distanceSquared]
  refine ⟨?_, ?_, rfl⟩ <;>
    simp [buildPlayersPayload, buildPlayersAux, players41, mkW, renderPlayer, hd]

end Wormy
